import Mathlib

/-!
Verification of the image-classification inference server
(source: src/Detection algorithm/main.go).

Shallow embedding notes:
* Confidence values (Go float32) are modelled as rationals.  Every operation
  the verified code performs on them is a comparison or a division of a
  sample in [0, 65535] by 65535, and on such inputs the IEEE float32 order
  and range agree with the rational order and range, so the claims transfer.
* Go slices become Lean lists; the Go int parameter k of getTopK becomes Int
  (it can be negative); class indices become Nat.
* External libraries (image decoders, the resize library, the TensorFlow
  binding) are modelled as parameters together with their documented
  contracts, stated as hypotheses of the theorems that need them.
-/

/-- Go struct RecognitionResult from main.go: a label and a confidence. -/
structure RecognitionResult where
  Label : String
  Confidence : ℚ
deriving DecidableEq, Repr

/-- One pass of the inner loop of the exchange sort in getTopK
(main.go lines 140-146).  The Go code keeps the current element at
position i and scans j = i+1 .. len-1, swapping whenever
preds[j].value > preds[i].value.  Functionally: x is the value currently
held at position i, rest is the suffix; the result is the value left at
position i after the pass together with the updated suffix. -/
def selInner (x : Nat × ℚ) (rest : List (Nat × ℚ)) : (Nat × ℚ) × List (Nat × ℚ) :=
  match rest with
  | [] => (x, [])
  | y :: ys =>
    if x.2 < y.2 then
      let p := selInner y ys
      (p.1, x :: p.2)
    else
      let p := selInner x ys
      (p.1, y :: p.2)

/-- The outer loop of the exchange sort in getTopK.  The fuel argument
models the bounded loop counter; it is instantiated with the length of the
list, which is exactly the number of passes the Go loop performs (the pass
for the last position is a no-op in both). -/
def selSortFuel : Nat → List (Nat × ℚ) → List (Nat × ℚ)
  | 0, l => l
  | _ + 1, [] => []
  | n + 1, x :: xs =>
    let p := selInner x xs
    p.1 :: selSortFuel n p.2

/-- The in-place exchange sort of getTopK (main.go lines 140-146),
reordering (index, value) pairs by descending value. -/
def selSort (l : List (Nat × ℚ)) : List (Nat × ℚ) :=
  selSortFuel l.length l

/-- The clamp from main.go line 147: if k > len(preds) then k = len(preds). -/
def clampK (k : Int) (n : Nat) : Int :=
  if k > (n : Int) then (n : Int) else k

/-- Label lookup from main.go lines 152-155: start from the sentinel
"unknown" and replace it by labels[idx] when idx is in range. -/
def labelFor (labels : List String) (idx : Nat) : String :=
  labels.getD idx "unknown"

/-- The (index, value) pairs that survive the selection loop of getTopK:
the enumerated predictions (main.go lines 136-139), exchange-sorted, with
the first clamped-k of them taken (the loop at lines 150-161 reads
preds[0..k-1]).  A negative k makes the loop body run zero times. -/
def topEntries (predictions : List ℚ) (k : Int) : List (Nat × ℚ) :=
  let sorted := selSort predictions.enum
  sorted.take (clampK k sorted.length).toNat

/-- getTopK from main.go lines 131-163.  The label vocabulary (the Go
global `labels`) is passed explicitly. -/
def getTopK (labels : List String) (predictions : List ℚ) (k : Int) :
    List RecognitionResult :=
  (topEntries predictions k).map (fun p => ⟨labelFor labels p.1, p.2⟩)

/-- The process-wide state getTopK can read: the predictions slice passed
in and the global label vocabulary. -/
structure ServerState where
  predictions : List ℚ
  labels : List String

/-- Store-passing version of getTopK: the function builds a fresh local
slice `preds` of copied (index, value) structs (append of value copies,
main.go lines 136-139), sorts inside that copy, and only reads the state;
the returned state is the state the Go code leaves behind. -/
def getTopKSt (st : ServerState) (k : Int) : List RecognitionResult × ServerState :=
  let preds := st.predictions.enum
  let sorted := selSort preds
  let results := (sorted.take (clampK k sorted.length).toNat).map
      (fun p => ⟨labelFor st.labels p.1, p.2⟩)
  (results, st)

/-- A decoded pixel grid (Go image.Image).  pix x y is the triple returned
by At(x, y).RGBA() with the alpha component dropped, as in main.go line 74;
the Go color.Color contract keeps each component in [0, 65535]. -/
structure Image where
  width : Nat
  height : Nat
  pix : Nat → Nat → Nat × Nat × Nat

/-- The type of the external resize.Resize library function (width and
height first, as in the Go call at main.go line 65).  It is a parameter of
the model; its documented behaviour enters as explicit hypotheses. -/
def Resampler := Nat → Nat → Image → Image

/-- Go global inputHeight (main.go line 28). -/
def inputHeight : Nat := 224

/-- Go global inputWidth (main.go line 29). -/
def inputWidth : Nat := 224

/-- The three floats appended for one pixel (main.go lines 74-77):
each RGBA component divided by 65535. -/
def pixelTriple (img : Image) (x y : Nat) : List ℚ :=
  [((img.pix x y).1 : ℚ) / 65535,
   ((img.pix x y).2.1 : ℚ) / 65535,
   ((img.pix x y).2.2 : ℚ) / 65535]

/-- The flat imgData buffer filled by the double loop at main.go
lines 72-79: y outer, x inner, three channel values per pixel. -/
def imgData (img : Image) : List ℚ :=
  ((List.range img.height).map (fun y =>
      ((List.range img.width).map (fun x => pixelTriple img x y)).flatten)).flatten

/-- The three-float slice copied into batch[0][y][x] at main.go
lines 89-92.  The packing loop walks imgData with a cursor idx that
advances by 3 per pixel in the same y-outer x-inner order used to fill
imgData, so the pixel at (x, y) receives
imgData[3*(y*width+x) .. 3*(y*width+x)+3]; the cursor arithmetic is made
explicit here. -/
def packPixel (img : Image) (x y : Nat) : List ℚ :=
  ((imgData img).drop (3 * (y * img.width + x))).take 3

/-- The row batch[0][y] built by the inner loop at main.go lines 87-94. -/
def packRow (img : Image) (y : Nat) : List (List ℚ) :=
  (List.range img.width).map (fun x => packPixel img x y)

/-- The nested batch slice built at main.go lines 84-96: one batch entry
holding height rows. -/
def packBatch (img : Image) : List (List (List (List ℚ))) :=
  [(List.range img.height).map (fun y => packRow img y)]

/-- The dense tensor produced by tf.NewTensor: a rectangular 4-d value. -/
structure Tensor where
  data : List (List (List (List ℚ)))
deriving DecidableEq

/-- Errors of the preprocessing stage.  tensorError models a tf.NewTensor
failure (the only error return in preprocessImage, main.go lines 98-101).
invalidImage is the rejection named by the spec error taxonomy; the code
has no path that produces it, and it is declared here so that statements
about it can be written. -/
inductive PreprocessError where
  | tensorError : PreprocessError
  | invalidImage : PreprocessError
deriving DecidableEq

/-- All member lists have equal length: one level of the rectangularity
requirement tf.NewTensor places on nested slices. -/
def sameLengths {α : Type} (l : List (List α)) : Bool :=
  match l with
  | [] => true
  | x :: xs => xs.all (fun y => y.length == x.length)

/-- Rectangularity of a 4-d nested list at every level. -/
def uniform4 (t : List (List (List (List ℚ)))) : Bool :=
  sameLengths t && sameLengths t.flatten && sameLengths t.flatten.flatten

/-- Model of tf.NewTensor on a 4-d nested slice: it succeeds exactly when
the nested value is rectangular and then carries the data unchanged. -/
def newTensor (batch : List (List (List (List ℚ)))) : Except PreprocessError Tensor :=
  if uniform4 batch then Except.ok ⟨batch⟩ else Except.error PreprocessError.tensorError

/-- preprocessImage from main.go lines 64-103: resize to
(inputWidth, inputHeight), read width and height from the resized bounds,
fill imgData, pack the batch, and hand it to tf.NewTensor.  The throwaway
NewTensor call on a constant at line 80 always succeeds and its result is
overwritten, so it is dropped from the model.  There is no check of the
decoded image dimensions anywhere in the function. -/
def preprocessImage (resample : Resampler) (img : Image) : Except PreprocessError Tensor :=
  let resized := resample inputWidth inputHeight img
  newTensor (packBatch resized)

/-- The Go color.Color contract for RGBA(): every component lies
in [0, 65535]. -/
def ValidImage (img : Image) : Prop :=
  ∀ x y, (img.pix x y).1 ≤ 65535 ∧ (img.pix x y).2.1 ≤ 65535 ∧ (img.pix x y).2.2 ≤ 65535

/-- Documented dimension contract of resize.Resize: with nonzero target
width and height, the returned image has exactly those dimensions. -/
def ResampleDims (resample : Resampler) : Prop :=
  ∀ w h img, 0 < w → 0 < h → (resample w h img).width = w ∧ (resample w h img).height = h

/-- The resize library returns an image whose colors again satisfy the
color.Color range contract (nfnt/resize clamps its output samples). -/
def ResampleValid (resample : Resampler) : Prop :=
  ∀ w h img, ValidImage img → ValidImage (resample w h img)

/-- Shape predicate for a 4-d nested list: exact sizes at every level, no
jagged or partial rows. -/
def HasShape (t : List (List (List (List ℚ)))) (n h w c : Nat) : Prop :=
  t.length = n ∧
  (∀ b ∈ t, b.length = h) ∧
  (∀ b ∈ t, ∀ row ∈ b, row.length = w) ∧
  (∀ b ∈ t, ∀ row ∈ b, ∀ px ∈ row, px.length = c)

/-- All scalar values stored in a 4-d nested list. -/
def tensorValues (t : List (List (List (List ℚ)))) : List ℚ :=
  t.flatten.flatten.flatten

/-- The reader handed to readImage: an in-memory byte sequence, a read
cursor, and whether the concrete value also implements io.Seeker (the
type assertion at main.go line 53). -/
structure ByteStream where
  data : List Nat
  pos : Nat
  seekable : Bool
deriving DecidableEq

/-- The shape of the external jpeg.Decode and png.Decode calls: consume
from the stream, produce an image or fail, and leave the stream in some
advanced state. -/
def Decoder := ByteStream → Option Image × ByteStream

/-- The stream state on which the png.Decode attempt of readImage runs,
after a failed jpeg.Decode attempt (main.go lines 48-57): the stream as
the JPEG attempt left it, rewound to the start only when the reader
implements io.Seeker.  (The statement at line 52 calls Seek on a plain
io.Reader and is not well typed; the line that takes effect is the
type-assertion seek at lines 53-55, which this definition models.) -/
def pngInput (jpegD : Decoder) (s : ByteStream) : ByteStream :=
  let s1 := (jpegD s).2
  if s1.seekable then { s1 with pos := 0 } else s1

/-- readImage from main.go lines 47-62: try jpeg.Decode on the reader; on
failure seek back when possible and try png.Decode; if both fail, return
the unsupported-format error. -/
def readImage (jpegD pngD : Decoder) (s : ByteStream) : Except String Image × ByteStream :=
  match jpegD s with
  | (some img, s1) => (Except.ok img, s1)
  | (none, _) =>
    match pngD (pngInput jpegD s) with
    | (some img, s2) => (Except.ok img, s2)
    | (none, s2) => (Except.error "unsupported image format (only JPEG or PNG supported)", s2)

/-- view is a fresh view of the full buffered input: same bytes, cursor at
the start. -/
def ViewOfFullInput (view input : ByteStream) : Prop :=
  view.data = input.data ∧ view.pos = 0

/-- A decoder only reads: it may advance the cursor but leaves the bytes
and the seekability of the underlying reader alone. -/
def ReadOnlyDecoder (d : Decoder) : Prop :=
  ∀ s, (d s).2.data = s.data ∧ (d s).2.seekable = s.seekable

/-- Descending order on the value component of (index, value) pairs. -/
def DescVal (a b : Nat × ℚ) : Prop := b.2 ≤ a.2

/-- A structurally decoded image with zero dimensions. -/
def zeroImage : Image := ⟨0, 0, fun _ _ => (0, 0, 0)⟩

/-- Probe resampler producing an all-black one-pixel image whatever the
input; used to observe that preprocessImage consults the resampler output
even for a zero-size input image. -/
def resampleDark : Resampler := fun _ _ _ => ⟨1, 1, fun _ _ => (0, 0, 0)⟩

/-- Probe resampler producing an all-white one-pixel image. -/
def resampleLight : Resampler := fun _ _ _ => ⟨1, 1, fun _ _ => (65535, 65535, 65535)⟩

/-- A resampler obeying the dimension contract, with black output. -/
def resampleFit : Resampler := fun w h _ => ⟨w, h, fun _ _ => (0, 0, 0)⟩

/-- A one-pixel decoded image. -/
def oneImage : Image := ⟨1, 1, fun _ _ => (0, 0, 0)⟩

/-- A JPEG probe that consumes two signature bytes from the reader and
then fails, as jpeg.Decode does on a PNG payload. -/
def jpegProbe : Decoder := fun s => (none, ⟨s.data, s.pos + 2, s.seekable⟩)

/-- A non-seekable reader positioned at the start of four PNG signature
bytes. -/
def pngStream : ByteStream := ⟨[137, 80, 78, 71], 0, false⟩

theorem selInner_length (x : Nat × ℚ) (l : List (Nat × ℚ)) :
    ((selInner x l).2).length = l.length := by
  induction l generalizing x with
  | nil => rfl
  | cons y ys ih =>
    rw [selInner]
    split
    · simpa using ih y
    · simpa using ih x

theorem selInner_fst_ge (x : Nat × ℚ) (l : List (Nat × ℚ)) :
    x.2 ≤ (selInner x l).1.2 := by
  induction l generalizing x with
  | nil => exact le_refl _
  | cons y ys ih =>
    rw [selInner]
    split
    · next h => exact le_trans (le_of_lt h) (ih y)
    · exact ih x

theorem selInner_snd_le (x : Nat × ℚ) (l : List (Nat × ℚ)) :
    ∀ z ∈ (selInner x l).2, z.2 ≤ (selInner x l).1.2 := by
  induction l generalizing x with
  | nil => intro z hz; rw [selInner] at hz; cases hz
  | cons y ys ih =>
    intro z hz
    rw [selInner] at hz ⊢
    by_cases h : x.2 < y.2
    · rw [if_pos h] at hz ⊢
      rcases List.mem_cons.mp hz with h1 | h1
      · subst h1; exact le_trans (le_of_lt h) (selInner_fst_ge y ys)
      · exact ih y z h1
    · rw [if_neg h] at hz ⊢
      rcases List.mem_cons.mp hz with h1 | h1
      · subst h1; exact le_trans (not_lt.mp h) (selInner_fst_ge x ys)
      · exact ih x z h1

theorem selInner_fst_mem (x : Nat × ℚ) (l : List (Nat × ℚ)) :
    (selInner x l).1 = x ∨ (selInner x l).1 ∈ l := by
  induction l generalizing x with
  | nil => exact Or.inl rfl
  | cons y ys ih =>
    rw [selInner]
    by_cases h : x.2 < y.2
    · rw [if_pos h]
      rcases ih y with h1 | h1
      · exact Or.inr (by rw [h1]; exact List.mem_cons_self y ys)
      · exact Or.inr (List.mem_cons_of_mem _ h1)
    · rw [if_neg h]
      rcases ih x with h1 | h1
      · exact Or.inl h1
      · exact Or.inr (List.mem_cons_of_mem _ h1)

theorem selInner_snd_sub (x : Nat × ℚ) (l : List (Nat × ℚ)) :
    ∀ z ∈ (selInner x l).2, z = x ∨ z ∈ l := by
  induction l generalizing x with
  | nil => intro z hz; rw [selInner] at hz; cases hz
  | cons y ys ih =>
    intro z hz
    rw [selInner] at hz
    by_cases h : x.2 < y.2
    · rw [if_pos h] at hz
      rcases List.mem_cons.mp hz with h1 | h1
      · exact Or.inl h1
      · rcases ih y z h1 with h2 | h2
        · exact Or.inr (by rw [h2]; exact List.mem_cons_self y ys)
        · exact Or.inr (List.mem_cons_of_mem _ h2)
    · rw [if_neg h] at hz
      rcases List.mem_cons.mp hz with h1 | h1
      · exact Or.inr (by rw [h1]; exact List.mem_cons_self y ys)
      · rcases ih x z h1 with h2 | h2
        · exact Or.inl h2
        · exact Or.inr (List.mem_cons_of_mem _ h2)

theorem selInner_of_ge (x : Nat × ℚ) (l : List (Nat × ℚ))
    (h : ∀ y ∈ l, y.2 ≤ x.2) : selInner x l = (x, l) := by
  induction l with
  | nil => rfl
  | cons y ys ih =>
    rw [selInner, if_neg (not_lt.mpr (h y (List.mem_cons_self y ys)))]
    simp [ih (fun z hz => h z (List.mem_cons_of_mem _ hz))]

theorem selSortFuel_length (n : Nat) (l : List (Nat × ℚ)) :
    (selSortFuel n l).length = l.length := by
  induction n generalizing l with
  | zero => rfl
  | succ n ih =>
    cases l with
    | nil => rfl
    | cons x xs =>
      rw [selSortFuel]
      simp [ih, selInner_length]

theorem selSortFuel_mem (n : Nat) (l : List (Nat × ℚ)) :
    ∀ z ∈ selSortFuel n l, z ∈ l := by
  induction n generalizing l with
  | zero => intro z hz; exact hz
  | succ n ih =>
    cases l with
    | nil => intro z hz; cases hz
    | cons x xs =>
      intro z hz
      rw [selSortFuel] at hz
      rcases List.mem_cons.mp hz with h1 | h1
      · rcases selInner_fst_mem x xs with h2 | h2
        · rw [h1, h2]; exact List.mem_cons_self x xs
        · rw [h1]; exact List.mem_cons_of_mem _ h2
      · rcases selInner_snd_sub x xs z (ih _ z h1) with h2 | h2
        · rw [h2]; exact List.mem_cons_self x xs
        · exact List.mem_cons_of_mem _ h2

theorem selSortFuel_sorted (n : Nat) (l : List (Nat × ℚ)) (hn : l.length ≤ n) :
    List.Sorted DescVal (selSortFuel n l) := by
  induction n generalizing l with
  | zero =>
    have hl : l = [] := List.eq_nil_of_length_eq_zero (Nat.le_zero.mp hn)
    rw [hl]; exact List.sorted_nil
  | succ n ih =>
    cases l with
    | nil => exact List.sorted_nil
    | cons x xs =>
      rw [selSortFuel, List.sorted_cons]
      constructor
      · intro z hz
        exact selInner_snd_le x xs z (selSortFuel_mem n _ z hz)
      · refine ih _ ?_
        rw [selInner_length]
        simpa using hn

theorem selSortFuel_of_sorted (n : Nat) (l : List (Nat × ℚ))
    (h : List.Sorted DescVal l) : selSortFuel n l = l := by
  induction n generalizing l with
  | zero => rfl
  | succ n ih =>
    cases l with
    | nil => rfl
    | cons x xs =>
      rw [List.sorted_cons] at h
      rw [selSortFuel, selInner_of_ge x xs (fun y hy => h.1 y hy)]
      simp [ih xs h.2]

theorem selSort_length (l : List (Nat × ℚ)) : (selSort l).length = l.length :=
  selSortFuel_length _ _

theorem selSort_sorted (l : List (Nat × ℚ)) : List.Sorted DescVal (selSort l) :=
  selSortFuel_sorted _ _ (le_refl _)

theorem selSort_of_sorted (l : List (Nat × ℚ)) (h : List.Sorted DescVal l) :
    selSort l = l :=
  selSortFuel_of_sorted _ _ h

theorem selSort_mem (l : List (Nat × ℚ)) : ∀ z ∈ selSort l, z ∈ l :=
  selSortFuel_mem _ _

theorem mem_enumFrom_snd (l : List ℚ) (n : Nat) (z : Nat × ℚ)
    (h : z ∈ List.enumFrom n l) : z.2 ∈ l := by
  induction l generalizing n with
  | nil => cases h
  | cons x xs ih =>
    rw [List.enumFrom] at h
    rcases List.mem_cons.mp h with h1 | h1
    · rw [h1]; exact List.mem_cons_self x xs
    · exact List.mem_cons_of_mem _ (ih (n + 1) h1)

theorem pairwise_enumFrom (r : ℚ → ℚ → Prop) (n : Nat) (l : List ℚ)
    (h : List.Pairwise r l) :
    List.Pairwise (fun a b : Nat × ℚ => r a.2 b.2) (List.enumFrom n l) := by
  induction l generalizing n with
  | nil => exact List.Pairwise.nil
  | cons x xs ih =>
    rw [List.enumFrom]
    rw [List.pairwise_cons] at h ⊢
    constructor
    · intro z hz
      exact h.1 z.2 (mem_enumFrom_snd xs (n + 1) z hz)
    · exact ih (n + 1) h.2

theorem flatten_map_length {α : Type} (c : Nat) (f : α → List ℚ)
    (hf : ∀ a, (f a).length = c) (L : List α) :
    ((L.map f).flatten).length = L.length * c := by
  induction L with
  | nil => simp
  | cons a as ih =>
    rw [List.map_cons, List.flatten_cons, List.length_append, hf, ih,
        List.length_cons, Nat.succ_mul, Nat.add_comm]

theorem imgData_length (img : Image) :
    (imgData img).length = img.height * (img.width * 3) := by
  unfold imgData
  rw [flatten_map_length (img.width * 3)
        (fun y => ((List.range img.width).map (fun x => pixelTriple img x y)).flatten)
        (fun y => by
          rw [flatten_map_length 3 (fun x => pixelTriple img x y) (fun x => rfl),
              List.length_range]),
      List.length_range]

theorem packPixel_length (img : Image) (x y : Nat) (hx : x < img.width)
    (hy : y < img.height) : (packPixel img x y).length = 3 := by
  unfold packPixel
  rw [List.length_take, List.length_drop, imgData_length]
  have h1 : y * img.width + x + 1 ≤ img.height * img.width := by
    calc y * img.width + x + 1 ≤ y * img.width + img.width := by omega
    _ = (y + 1) * img.width := by rw [Nat.succ_mul]
    _ ≤ img.height * img.width := Nat.mul_le_mul_right _ hy
  have h2 : 3 * (y * img.width + x) + 3 ≤ img.height * (img.width * 3) := by
    calc 3 * (y * img.width + x) + 3 = 3 * (y * img.width + x + 1) := by ring
    _ ≤ 3 * (img.height * img.width) := by
        exact Nat.mul_le_mul_left 3 h1
    _ = img.height * (img.width * 3) := by ring
  omega

theorem packRow_length (img : Image) (y : Nat) :
    (packRow img y).length = img.width := by
  unfold packRow
  rw [List.length_map, List.length_range]

theorem sameLengths_of_const {α : Type} (L : List (List α)) (c : Nat)
    (h : ∀ l ∈ L, l.length = c) : sameLengths L = true := by
  cases L with
  | nil => rfl
  | cons x xs =>
    unfold sameLengths
    rw [List.all_eq_true]
    intro y hy
    have h1 : y.length = c := h y (List.mem_cons_of_mem _ hy)
    have h2 : x.length = c := h x (List.mem_cons_self x xs)
    simp [h1, h2]

theorem packBatch_flatten (img : Image) :
    (packBatch img).flatten = (List.range img.height).map (fun y => packRow img y) := by
  unfold packBatch
  rw [List.flatten_cons, List.flatten_nil, List.append_nil]

theorem mem_packBatch_flatten (img : Image) (row : List (List ℚ))
    (h : row ∈ (packBatch img).flatten) : ∃ y < img.height, row = packRow img y := by
  rw [packBatch_flatten] at h
  obtain ⟨y, hy, rfl⟩ := List.mem_map.mp h
  exact ⟨y, List.mem_range.mp hy, rfl⟩

theorem mem_packRow (img : Image) (y : Nat) (px : List ℚ) (h : px ∈ packRow img y) :
    ∃ x < img.width, px = packPixel img x y := by
  unfold packRow at h
  obtain ⟨x, hx, rfl⟩ := List.mem_map.mp h
  exact ⟨x, List.mem_range.mp hx, rfl⟩

theorem uniform4_packBatch (img : Image) : uniform4 (packBatch img) = true := by
  unfold uniform4
  rw [Bool.and_eq_true, Bool.and_eq_true]
  refine ⟨⟨?_, ?_⟩, ?_⟩
  · exact sameLengths_of_const _ ((List.range img.height).map (fun y => packRow img y)).length
      (by intro l hl; rw [List.mem_singleton.mp hl])
  · rw [packBatch_flatten]
    apply sameLengths_of_const _ img.width
    intro l hl
    obtain ⟨y, hy, rfl⟩ := List.mem_map.mp hl
    exact packRow_length img y
  · rw [packBatch_flatten]
    apply sameLengths_of_const _ 3
    intro l hl
    obtain ⟨row, hrow, hl2⟩ := List.mem_flatten.mp hl
    obtain ⟨y, hy, rfl⟩ := List.mem_map.mp hrow
    obtain ⟨x, hx, rfl⟩ := mem_packRow img y l hl2
    exact packPixel_length img x y hx (List.mem_range.mp hy)

theorem preprocessImage_eq (resample : Resampler) (img : Image) :
    preprocessImage resample img =
      Except.ok ⟨packBatch (resample inputWidth inputHeight img)⟩ := by
  unfold preprocessImage newTensor
  rw [if_pos (uniform4_packBatch _)]

theorem mem_imgData_bounds (img : Image) (hv : ValidImage img) :
    ∀ v ∈ imgData img, 0 ≤ v ∧ v ≤ 1 := by
  intro v hvm
  unfold imgData at hvm
  obtain ⟨rowl, hrow, hvrow⟩ := List.mem_flatten.mp hvm
  obtain ⟨y, hy, rfl⟩ := List.mem_map.mp hrow
  obtain ⟨px, hpx, hvpx⟩ := List.mem_flatten.mp hvrow
  obtain ⟨x, hx, rfl⟩ := List.mem_map.mp hpx
  obtain ⟨h1, h2, h3⟩ := hv x y
  have hb : ∀ c : Nat, c ≤ 65535 → 0 ≤ (c : ℚ) / 65535 ∧ (c : ℚ) / 65535 ≤ 1 := by
    intro c hc
    constructor
    · positivity
    · rw [div_le_one (by norm_num)]
      exact_mod_cast hc
  unfold pixelTriple at hvpx
  rcases List.mem_cons.mp hvpx with h4 | h4
  · rw [h4]; exact hb _ h1
  rcases List.mem_cons.mp h4 with h5 | h5
  · rw [h5]; exact hb _ h2
  rcases List.mem_cons.mp h5 with h6 | h6
  · rw [h6]; exact hb _ h3
  · cases h6

theorem mem_tensorValues_packBatch (img : Image) (v : ℚ)
    (h : v ∈ tensorValues (packBatch img)) : v ∈ imgData img := by
  unfold tensorValues at h
  rw [packBatch_flatten] at h
  obtain ⟨px, hpxmem, hvpx⟩ := List.mem_flatten.mp h
  obtain ⟨row, hrowmem, hpxrow⟩ := List.mem_flatten.mp hpxmem
  obtain ⟨y, hy, rfl⟩ := List.mem_map.mp hrowmem
  obtain ⟨x, hx, rfl⟩ := mem_packRow img y px hpxrow
  unfold packPixel at hvpx
  exact List.drop_subset _ _ (List.take_subset _ _ hvpx)

/-- C1, counterexample: on the probability vector [0.5, 0.5, 0.9] with
k = 3 the claim predicts the order index 2, index 0, index 1; the exchange
sort of getTopK instead swaps the tied entries and returns index 2,
index 1, index 0, so the lower original index does not win ties. -/
theorem C1_counterexample :
    getTopK ["l0", "l1", "l2"] [mkRat 1 2, mkRat 1 2, mkRat 9 10] 3 ≠
      [⟨"l2", mkRat 9 10⟩, ⟨"l0", mkRat 1 2⟩, ⟨"l1", mkRat 1 2⟩] := by
  decide

/-- C1, amended: for every probability vector and every k, getTopK returns
its selected entries ordered by non-increasing confidence; the order among
entries with equal confidence is deterministic but is not ascending
original index: for the vector [0.5, 0.5, 0.9] with k = 3 the result order
is index 2, then index 1, then index 0. -/
theorem C1_descending_order :
    (∀ (labels : List String) (predictions : List ℚ) (k : Int),
      List.Sorted (fun a b : RecognitionResult => b.Confidence ≤ a.Confidence)
        (getTopK labels predictions k)) ∧
    getTopK ["l0", "l1", "l2"] [mkRat 1 2, mkRat 1 2, mkRat 9 10] 3 =
      [⟨"l2", mkRat 9 10⟩, ⟨"l1", mkRat 1 2⟩, ⟨"l0", mkRat 1 2⟩] := by
  constructor
  · intro labels predictions k
    unfold getTopK topEntries
    rw [List.Sorted, List.pairwise_map]
    exact List.Pairwise.sublist (List.take_sublist _ _) (selSort_sorted _)
  · decide

/-- C6, counterexample: with vocabulary of size 2, probability vector of
length 3 and k = 3, getTopK returns 3 results, not
min(k, vocabulary size) = 2: the clamp in the code uses the prediction
count, never the vocabulary size. -/
theorem C6_counterexample :
    (getTopK ["a", "b"] [mkRat 1 10, mkRat 2 10, mkRat 7 10] 3).length ≠
      min 3 (["a", "b"] : List String).length := by
  decide

/-- C6, amended: for every probability vector, vocabulary and
non-negative k, the result sequence of getTopK has length exactly
min(k, probability-vector length); the vocabulary size plays no role. -/
theorem C6_result_length (labels : List String) (predictions : List ℚ) (k : Int)
    (hk : 0 ≤ k) :
    (getTopK labels predictions k).length = min k.toNat predictions.length := by
  unfold getTopK topEntries
  rw [List.length_map, List.length_take, selSort_length, List.enum_length]
  unfold clampK
  split <;> omega

/-- Witness for C6 at k = 3 over a vector of length 3. -/
theorem C6_result_length_witness :
    0 ≤ (3 : Int) ∧
    (getTopK ["a", "b"] [mkRat 1 10, mkRat 2 10, mkRat 7 10] 3).length =
      min (Int.toNat 3) ([mkRat 1 10, mkRat 2 10, mkRat 7 10] : List ℚ).length :=
  ⟨by decide, C6_result_length ["a", "b"] [mkRat 1 10, mkRat 2 10, mkRat 7 10] 3 (by decide)⟩

/-- C7: every selected entry whose class index has no vocabulary entry is
still present in the result, at its position, with the sentinel label
"unknown" and its original confidence; the lookup neither fails nor skips
the entry. -/
theorem C7_unknown_label (labels : List String) (predictions : List ℚ) (k : Int)
    (i idx : Nat) (v : ℚ)
    (hget : (topEntries predictions k).get? i = some (idx, v))
    (hoob : labels.length ≤ idx) :
    (getTopK labels predictions k).get? i = some ⟨"unknown", v⟩ := by
  unfold getTopK
  rw [List.get?_eq_getElem?] at hget ⊢
  rw [List.getElem?_map, hget]
  simp [labelFor, List.getD_eq_getElem?_getD, List.getElem?_eq_none hoob]

/-- Witness for C7: vocabulary of length 2, probability vector of length 3
with its maximum at index 2, top-1 yields the label "unknown". -/
theorem C7_unknown_label_witness :
    (topEntries [mkRat 1 2, mkRat 1 4, mkRat 9 10] 1).get? 0 = some (2, mkRat 9 10) ∧
    (["a", "b"] : List String).length ≤ 2 ∧
    (getTopK ["a", "b"] [mkRat 1 2, mkRat 1 4, mkRat 9 10] 1).get? 0 =
      some ⟨"unknown", mkRat 9 10⟩ :=
  ⟨by decide, by decide,
    C7_unknown_label ["a", "b"] [mkRat 1 2, mkRat 1 4, mkRat 9 10] 1 0 2 (mkRat 9 10)
      (by decide) (by decide)⟩

/-- C8: on a probability vector already sorted by descending value, with k
equal to the vector length, getTopK keeps every entry in its original
position: the exchange sort performs no swap on a list without strict
inversions. -/
theorem C8_sorted_input_preserved (labels : List String) (predictions : List ℚ)
    (h : List.Sorted (fun a b : ℚ => b ≤ a) predictions) :
    getTopK labels predictions (predictions.length : Int) =
      predictions.enum.map (fun p => ⟨labelFor labels p.1, p.2⟩) := by
  have hs : List.Sorted DescVal predictions.enum :=
    pairwise_enumFrom (fun a b => b ≤ a) 0 predictions h
  simp only [getTopK, topEntries]
  rw [selSort_of_sorted _ hs]
  have hlen : (clampK (predictions.length : Int) predictions.enum.length).toNat =
      predictions.enum.length := by
    simp [clampK, List.enum_length]
  rw [hlen, List.take_length]

/-- Witness for C8 on the sorted vector [0.9, 0.5]. -/
theorem C8_sorted_input_preserved_witness :
    List.Sorted (fun a b : ℚ => b ≤ a) [mkRat 9 10, mkRat 1 2] ∧
    getTopK ["a", "b"] [mkRat 9 10, mkRat 1 2]
        (([mkRat 9 10, mkRat 1 2] : List ℚ).length : Int) =
      ([mkRat 9 10, mkRat 1 2] : List ℚ).enum.map
        (fun p => ⟨labelFor ["a", "b"] p.1, p.2⟩) :=
  ⟨by decide, C8_sorted_input_preserved ["a", "b"] [mkRat 9 10, mkRat 1 2] (by decide)⟩

/-- C9: getTopK leaves the process state alone: the predictions slice and
the label vocabulary read through the state are returned unchanged, and
the ranking (performed inside a fresh copied slice of index-value pairs)
produces the same results as the pure function. -/
theorem C9_no_mutation (st : ServerState) (k : Int) :
    (getTopKSt st k).2.predictions = st.predictions ∧
    (getTopKSt st k).2.labels = st.labels ∧
    (getTopKSt st k).1 = getTopK st.labels st.predictions k :=
  ⟨rfl, rfl, rfl⟩

/-- C10: getTopK is total at its interface: an empty probability vector
gives an empty result, and any k at most 0 gives an empty result, for
every vocabulary, with no failure. -/
theorem C10_total_on_degenerate (labels : List String) (predictions : List ℚ)
    (k : Int) :
    (predictions = [] → getTopK labels predictions k = []) ∧
    (k ≤ 0 → getTopK labels predictions k = []) := by
  constructor
  · intro h
    subst h
    simp [getTopK, topEntries, selSort, selSortFuel]
  · intro hk
    simp only [getTopK, topEntries]
    have hz : (clampK k (selSort predictions.enum).length).toNat = 0 := by
      unfold clampK
      split <;> omega
    rw [hz]
    simp

/-- Witness for C10: empty vector with k = 5, and k = -1 on a singleton. -/
theorem C10_total_on_degenerate_witness :
    getTopK ["a"] [] 5 = [] ∧ getTopK ["a"] [mkRat 1 2] (-1) = [] :=
  ⟨(C10_total_on_degenerate ["a"] [] 5).1 rfl,
   (C10_total_on_degenerate ["a"] [mkRat 1 2] (-1)).2 (by decide)⟩

/-- C2: with the resize library meeting its documented dimension contract,
preprocessing any decoded image of positive width and height packs a batch
of shape exactly [1, inputHeight, inputWidth, 3]: one batch entry,
inputHeight rows, inputWidth pixels per row, 3 channel values per pixel,
with no jagged or partial rows. -/
theorem C2_tensor_shape (resample : Resampler) (img : Image)
    (hr : ResampleDims resample) (_hw : 0 < img.width) (_hh : 0 < img.height) :
    HasShape (packBatch (resample inputWidth inputHeight img)) 1 inputHeight inputWidth 3 := by
  obtain ⟨hW, hH⟩ := hr inputWidth inputHeight img (by decide) (by decide)
  refine ⟨rfl, ?_, ?_, ?_⟩
  · intro b hb
    simp only [packBatch, List.mem_singleton] at hb
    subst hb
    rw [List.length_map, List.length_range, hH]
  · intro b hb row hrow
    simp only [packBatch, List.mem_singleton] at hb
    subst hb
    obtain ⟨y, hy, rfl⟩ := List.mem_map.mp hrow
    rw [packRow_length, hW]
  · intro b hb row hrow px hpx
    simp only [packBatch, List.mem_singleton] at hb
    subst hb
    obtain ⟨y, hy, rfl⟩ := List.mem_map.mp hrow
    obtain ⟨x, hx, rfl⟩ := mem_packRow _ y px hpx
    exact packPixel_length _ x y hx (List.mem_range.mp hy)

/-- Witness for C2 on a one-pixel input and a contract-abiding resampler. -/
theorem C2_tensor_shape_witness :
    ResampleDims resampleFit ∧ 0 < oneImage.width ∧ 0 < oneImage.height ∧
    HasShape (packBatch (resampleFit inputWidth inputHeight oneImage))
      1 inputHeight inputWidth 3 :=
  ⟨fun _ _ _ _ _ => ⟨rfl, rfl⟩, Nat.one_pos, Nat.one_pos,
    C2_tensor_shape resampleFit oneImage (fun _ _ _ _ _ => ⟨rfl, rfl⟩)
      Nat.one_pos Nat.one_pos⟩

/-- C3: for a valid input image (all color samples within the 16-bit range
guaranteed by the Go color interface) and a resampler preserving that
range, every value of the packed tensor lies in [0, 1]: each value is a
channel sample divided by 65535, the largest representable 16-bit sample. -/
theorem C3_values_in_unit (resample : Resampler) (img : Image)
    (hrv : ResampleValid resample) (hv : ValidImage img) :
    ∀ v ∈ tensorValues (packBatch (resample inputWidth inputHeight img)),
      0 ≤ v ∧ v ≤ 1 := by
  intro v hmem
  exact mem_imgData_bounds _ (hrv inputWidth inputHeight img hv) v
    (mem_tensorValues_packBatch _ v hmem)

/-- Witness for C3 on a one-pixel black image. -/
theorem C3_values_in_unit_witness :
    ResampleValid resampleFit ∧ ValidImage oneImage ∧
    ∀ v ∈ tensorValues (packBatch (resampleFit inputWidth inputHeight oneImage)),
      0 ≤ v ∧ v ≤ 1 :=
  ⟨fun _ _ _ _ _ _ => ⟨Nat.zero_le _, Nat.zero_le _, Nat.zero_le _⟩,
   fun _ _ => ⟨Nat.zero_le _, Nat.zero_le _, Nat.zero_le _⟩,
   C3_values_in_unit resampleFit oneImage
     (fun _ _ _ _ _ _ => ⟨Nat.zero_le _, Nat.zero_le _, Nat.zero_le _⟩)
     (fun _ _ => ⟨Nat.zero_le _, Nat.zero_le _, Nat.zero_le _⟩)⟩

/-- C5, counterexample: on a decoded image with zero width and height,
preprocessImage does not return the InvalidImage rejection, and its result
still depends on the resampler output, so resampling is invoked on the
zero-size image rather than prevented by a prior check. -/
theorem C5_counterexample :
    zeroImage.width = 0 ∧
    preprocessImage resampleDark zeroImage ≠ Except.error PreprocessError.invalidImage ∧
    preprocessImage resampleDark zeroImage ≠ preprocessImage resampleLight zeroImage := by
  have hA : packBatch (resampleDark inputWidth inputHeight zeroImage) =
      [[[pixelTriple (resampleDark inputWidth inputHeight zeroImage) 0 0]]] := rfl
  have hB : packBatch (resampleLight inputWidth inputHeight zeroImage) =
      [[[pixelTriple (resampleLight inputWidth inputHeight zeroImage) 0 0]]] := rfl
  refine ⟨rfl, ?_, ?_⟩
  · rw [preprocessImage_eq]
    simp
  · rw [preprocessImage_eq, preprocessImage_eq]
    intro hEq
    simp only [Except.ok.injEq, Tensor.mk.injEq] at hEq
    rw [hA, hB] at hEq
    norm_num [pixelTriple, resampleDark, resampleLight] at hEq

/-- C5, amended: preprocessImage performs no dimension check at all: for
every resampler and every decoded image, zero-size images included, it
invokes the resampler and returns the packed resampled data with no
error; in particular it never produces the InvalidImage rejection. -/
theorem C5_no_rejection (resample : Resampler) (img : Image) :
    preprocessImage resample img =
      Except.ok ⟨packBatch (resample inputWidth inputHeight img)⟩ ∧
    preprocessImage resample img ≠ Except.error PreprocessError.invalidImage := by
  refine ⟨preprocessImage_eq resample img, ?_⟩
  rw [preprocessImage_eq]
  simp

/-- C4, counterexample: readImage buffers nothing; on a non-seekable
reader whose failed JPEG probe consumed two bytes, the PNG attempt starts
at position 2 of the stream, not on an independent view of the full
input. -/
theorem C4_counterexample :
    ¬ ViewOfFullInput (pngInput jpegProbe pngStream) pngStream := by
  intro h
  exact absurd h.2 (by decide)

/-- C4, amended: readImage decodes straight off the reader with no
buffering; after a failed JPEG attempt by a decoder that only reads, the
PNG attempt sees a view of the full input exactly when the reader is
seekable (readImage then seeks back to the start); on a non-seekable
reader the PNG attempt continues from wherever the JPEG attempt stopped. -/
theorem C4_seek_based_retry (jpegD : Decoder) (s : ByteStream)
    (hj : ReadOnlyDecoder jpegD) :
    (s.seekable = true → ViewOfFullInput (pngInput jpegD s) s) ∧
    (s.seekable = false → pngInput jpegD s = (jpegD s).2) := by
  obtain ⟨hdata, hseek⟩ := hj s
  constructor
  · intro hs
    simp only [pngInput]
    rw [hseek, hs, if_pos rfl]
    exact ⟨hdata, rfl⟩
  · intro hs
    simp only [pngInput]
    rw [hseek, hs, if_neg (by simp)]

/-- Witness for C4: a seekable reader is rewound to a full view before
the PNG attempt. -/
theorem C4_seek_based_retry_witness :
    ReadOnlyDecoder jpegProbe ∧
    ViewOfFullInput (pngInput jpegProbe ⟨[137, 80, 78, 71], 0, true⟩)
      ⟨[137, 80, 78, 71], 0, true⟩ :=
  ⟨fun _ => ⟨rfl, rfl⟩,
    (C4_seek_based_retry jpegProbe ⟨[137, 80, 78, 71], 0, true⟩
      (fun _ => ⟨rfl, rfl⟩)).1 rfl⟩
